import Mathlib

/-!
Shallow embedding of the `asset_co2_emissions` ink! contract
(`src/lib.rs`, module `asset_co2_emissions`, storage struct `InfinityAsset`).

Machine integers are modelled as `Nat`; the only place where the u128 range
matters is the `checked_add` in `next_id`, modelled explicitly against
`U128_MAX`.  `AccountId` is modelled as `Nat`.  The ink! `Mapping` type is
modelled as `Nat → Option α` with pointwise update; `BTreeMap`/`BTreeSet`
buckets are modelled as `Option (List Nat)` where the list holds the set's
elements (insertion is guarded by membership, so lists stay duplicate-free,
matching set semantics).  A Rust method `&mut self -> Result<T, E>` becomes
`InfinityAsset → ... → Except Error T × InfinityAsset`, where the returned
state is the post-state even on the error path (mutations performed before an
early `?` return persist, exactly as for `&mut self` in the source).
Event emission (`emit_event`) is a host side effect and is not part of the
embedded state.
-/

/-- `EmissionsCategory` enum (src/lib.rs:26). -/
inductive EmissionsCategory where
  | Process
  | Transport
  | Upstream
deriving DecidableEq, Repr

/-- `AssetCO2EmissionsError` enum (src/lib.rs:35). -/
inductive AssetCO2EmissionsError where
  | AssetIdOverflow
  | AssetNotFound
  | AlreadyPaused
  | NotOwner
  | NotPaused
  | ParentNotFound
  | ParentNotPaused
  | EmissionsEmpty
  | EmissionsOverflow
  | ZeroEmissionsItem
  | MetadataOverflow
  | InvalidAssetRelation
  | AssetAlreadyExists
  | InvalidSmartContractState
deriving DecidableEq, Repr

/-- `CO2Emissions` struct (src/lib.rs:144). -/
structure CO2Emissions where
  category : EmissionsCategory
  primary : Bool
  balanced : Bool
  emissions : Nat
  date : Nat
deriving DecidableEq, Repr

/-- `ParentDetails = Option<(AssetId, ParentRelation)>` (src/lib.rs:17). -/
abbrev ParentDetails := Option (Nat × Nat)

/-- `AssetDetails = (AssetId, Metadata, Vec<CO2Emissions>, ParentDetails)` (src/lib.rs:18). -/
abbrev AssetDetails := Nat × List Nat × List CO2Emissions × ParentDetails

/-- `MAX_METADATA_LENGTH` (src/lib.rs:21). -/
def MAX_METADATA_LENGTH : Nat := 250

/-- `MAX_EMISSIONS_PER_ASSET` (src/lib.rs:22). -/
def MAX_EMISSIONS_PER_ASSET : Nat := 100

/-- `u128::MAX`, the value at which `checked_add(1)` on a u128 returns `None`. -/
def U128_MAX : Nat := 2 ^ 128 - 1

instance : DecidableEq (Except AssetCO2EmissionsError Unit) := fun a b =>
  match a, b with
  | .ok (), .ok () => .isTrue rfl
  | .error e1, .error e2 =>
      if h : e1 = e2 then .isTrue (by rw [h]) else
        .isFalse (fun hh => h (by cases hh; rfl))
  | .ok _, .error _ => .isFalse (fun hh => Except.noConfusion hh)
  | .error _, .ok _ => .isFalse (fun hh => Except.noConfusion hh)

/-- Pointwise update, modelling `Mapping::insert` / `BTreeMap::insert`. -/
def upd {α : Type} (m : Nat → Option α) (k : Nat) (v : α) : Nat → Option α :=
  fun i => if i = k then some v else m i

/-- `BTreeSet::insert` on the list model of a set of ids. -/
def setInsert (x : Nat) (l : List Nat) : List Nat :=
  if x ∈ l then l else x :: l

/-- The `InfinityAsset` contract storage (src/lib.rs:447). -/
structure InfinityAsset where
  next_id : Nat
  asset_owner : Nat → Option Nat
  owned_assets : Nat → Option (List Nat)
  co2_emissions : Nat → Option (List CO2Emissions)
  metadata : Nat → Option (List Nat)
  paused : Nat → Option Bool
  parent : Nat → Option ParentDetails

/-- The `new` constructor (src/lib.rs:459): fresh state, counter starts at 1. -/
def new : InfinityAsset :=
  { next_id := 1
    asset_owner := fun _ => none
    owned_assets := fun _ => none
    co2_emissions := fun _ => none
    metadata := fun _ => none
    paused := fun _ => none
    parent := fun _ => none }

/-- `insert_owned_asset` (src/lib.rs:471): add an id into an owner's index set,
creating the set on first insertion; both arms return `Ok`. -/
def insert_owned_asset (s : InfinityAsset) (owner asset_id : Nat) :
    Except AssetCO2EmissionsError Unit × InfinityAsset :=
  match s.owned_assets owner with
  | none =>
      (.ok (), { s with owned_assets := upd s.owned_assets owner [asset_id] })
  | some owned =>
      (.ok (), { s with owned_assets := upd s.owned_assets owner (setInsert asset_id owned) })

/-- `remove_owned_asset` (src/lib.rs:490): remove an id from an owner's index
set; a missing set is `InvalidSmartContractState`. -/
def remove_owned_asset (s : InfinityAsset) (owner asset_id : Nat) :
    Except AssetCO2EmissionsError Unit × InfinityAsset :=
  match s.owned_assets owner with
  | none => (.error .InvalidSmartContractState, s)
  | some owned =>
      (.ok (), { s with owned_assets := upd s.owned_assets owner (owned.erase asset_id) })

/-- `ensure_not_exist` (src/lib.rs:504): presence check on `asset_owner`. -/
def ensure_not_exist (s : InfinityAsset) (id : Nat) : Except AssetCO2EmissionsError Unit :=
  match (s.asset_owner id).isSome with
  | false => .ok ()
  | true => .error .AssetAlreadyExists

/-- `ensure_exists` (src/lib.rs:511). -/
def ensure_exists (s : InfinityAsset) (id : Nat) : Except AssetCO2EmissionsError Unit :=
  match (s.asset_owner id).isSome with
  | true => .ok ()
  | false => .error .AssetNotFound

/-- `ensure_owner` (src/lib.rs:518): `AssetNotFound` when the owner entry is
missing, `NotOwner` when it differs from the account. -/
def ensure_owner (s : InfinityAsset) (id account : Nat) : Except AssetCO2EmissionsError Unit :=
  match s.asset_owner id with
  | none => .error .AssetNotFound
  | some owner => if owner = account then .ok () else .error .NotOwner

/-- `has_paused` (src/lib.rs:773). -/
def has_paused (s : InfinityAsset) (id : Nat) : Option Bool :=
  s.paused id

/-- `ensure_paused` (src/lib.rs:534). -/
def ensure_paused (s : InfinityAsset) (id : Nat) : Except AssetCO2EmissionsError Unit :=
  match has_paused s id with
  | none => .error .AssetNotFound
  | some false => .error .NotPaused
  | some true => .ok ()

/-- `ensure_not_paused` (src/lib.rs:542). -/
def ensure_not_paused (s : InfinityAsset) (id : Nat) : Except AssetCO2EmissionsError Unit :=
  match has_paused s id with
  | none => .error .AssetNotFound
  | some true => .error .AlreadyPaused
  | some false => .ok ()

/-- `ensure_proper_parent` (src/lib.rs:550): owner check on the parent id, then
non-zero relation, then parent paused. -/
def ensure_proper_parent (s : InfinityAsset) (par : ParentDetails) (caller : Nat) :
    Except AssetCO2EmissionsError Unit :=
  match par with
  | none => .ok ()
  | some (parent_id, relation) =>
      match ensure_owner s parent_id caller with
      | .error e => .error e
      | .ok _ =>
          match relation with
          | 0 => .error .InvalidAssetRelation
          | _ + 1 => ensure_paused s parent_id

/-- `ensure_emissions_not_empty` (src/lib.rs:583). -/
def ensure_emissions_not_empty (emissions : List CO2Emissions) :
    Except AssetCO2EmissionsError Unit :=
  match emissions.length with
  | 0 => .error .EmissionsEmpty
  | _ + 1 => .ok ()

/-- `ensure_emissions_not_unbounded` (src/lib.rs:593). -/
def ensure_emissions_not_unbounded (emissions : List CO2Emissions) :
    Except AssetCO2EmissionsError Unit :=
  if emissions.length > MAX_EMISSIONS_PER_ASSET then .error .EmissionsOverflow
  else .ok ()

/-- `ensure_emissions_item_not_zero` (src/lib.rs:610). -/
def ensure_emissions_item_not_zero (item : CO2Emissions) :
    Except AssetCO2EmissionsError Unit :=
  match item.emissions with
  | 0 => .error .ZeroEmissionsItem
  | _ + 1 => .ok ()

/-- `ensure_emissions_item_correct` (src/lib.rs:602). -/
def ensure_emissions_item_correct (item : CO2Emissions) :
    Except AssetCO2EmissionsError Unit :=
  match ensure_emissions_item_not_zero item with
  | .error e => .error e
  | .ok _ => .ok ()

/-- `Result::is_ok`, used by the `all` combinator in `ensure_emissions_correct`. -/
def exceptIsOk {ε α : Type} : Except ε α → Bool
  | .ok _ => true
  | .error _ => false

/-- `ensure_emissions_correct` (src/lib.rs:568): non-empty, within the per-call
bound, and every item valid; a failing item reports `ZeroEmissionsItem`. -/
def ensure_emissions_correct (emissions : List CO2Emissions) :
    Except AssetCO2EmissionsError Unit :=
  match ensure_emissions_not_empty emissions with
  | .error e => .error e
  | .ok _ =>
      match ensure_emissions_not_unbounded emissions with
      | .error e => .error e
      | .ok _ =>
          match emissions.all (fun item => exceptIsOk (ensure_emissions_item_correct item)) with
          | false => .error .ZeroEmissionsItem
          | true => .ok ()

/-- `ensure_proper_metadata` (src/lib.rs:620). -/
def ensure_proper_metadata (metadata : List Nat) : Except AssetCO2EmissionsError Unit :=
  if metadata.length > MAX_METADATA_LENGTH then .error .MetadataOverflow
  else .ok ()

/-- `save_new_emissions` (src/lib.rs:630): extend the stored list with the new
items, check the combined length bound, and only then write back. -/
def save_new_emissions (s : InfinityAsset) (id : Nat) (emissions : List CO2Emissions) :
    Except AssetCO2EmissionsError Unit × InfinityAsset :=
  let updated_emissions := ((s.co2_emissions id).getD []) ++ emissions
  match ensure_emissions_not_unbounded updated_emissions with
  | .error e => (.error e, s)
  | .ok _ =>
      (.ok (), { s with co2_emissions := upd s.co2_emissions id updated_emissions })

/-- `next_id` (src/lib.rs:650): return the counter then increment with checked
arithmetic; at `u128::MAX` the add fails and the counter is left unchanged. -/
def next_id (s : InfinityAsset) : Except AssetCO2EmissionsError Nat × InfinityAsset :=
  if s.next_id = U128_MAX then (.error .AssetIdOverflow, s)
  else (.ok s.next_id, { s with next_id := s.next_id + 1 })

/-- `get_asset_emissions` (src/lib.rs:794). -/
def get_asset_emissions (s : InfinityAsset) (id : Nat) : Option (List CO2Emissions) :=
  s.co2_emissions id

/-- `get_metadata` (src/lib.rs:799). -/
def get_metadata (s : InfinityAsset) (id : Nat) : Option (List Nat) :=
  s.metadata id

/-- `get_parent_details` (src/lib.rs:804). -/
def get_parent_details (s : InfinityAsset) (id : Nat) : Option ParentDetails :=
  s.parent id

/-- `get_asset` (src/lib.rs:809).  The outer `Option` models the `expect`
panics: `none` is the panic case (metadata present but emissions or parent
missing), `some none` is a normal miss (no metadata), `some (some d)` is a
found asset. -/
def get_asset (s : InfinityAsset) (id : Nat) : Option (Option AssetDetails) :=
  match get_metadata s id with
  | none => some none
  | some md =>
      match get_asset_emissions s id, get_parent_details s id with
      | some emissions, some par => some (some (id, md, emissions, par))
      | _, _ => none

/-- `build_asset_tree` (src/lib.rs:659): follow parent links, accumulating the
asset details child-to-root.  The source's unbounded `loop` is modelled with a
`fuel` parameter; `none` stands for fuel exhaustion or for the `expect` panic
inside the loop. -/
def build_asset_tree (s : InfinityAsset) (fuel id : Nat) : Option (List AssetDetails) :=
  match fuel with
  | 0 => none
  | f + 1 =>
      match get_asset s id with
      | some (some (aid, md, emissions, parent_details)) =>
          match parent_details with
          | none => some [(aid, md, emissions, none)]
          | some (parent_id, r) =>
              match build_asset_tree s f parent_id with
              | none => none
              | some rest => some ((aid, md, emissions, some (parent_id, r)) :: rest)
      | _ => none

/-- `list_assets` (src/lib.rs:682): the owner's index set as a list, empty for
an unknown owner. -/
def list_assets (s : InfinityAsset) (owner : Nat) : List Nat :=
  match s.owned_assets owner with
  | none => []
  | some owned => owned

/-- `owner_of` (src/lib.rs:693). -/
def owner_of (s : InfinityAsset) (id : Nat) : Option Nat :=
  s.asset_owner id

/-- `blast` (src/lib.rs:698): validate metadata, emissions and parent, allocate
an id, defensively re-check non-existence, then write all fields and save the
emissions. -/
def blast (s : InfinityAsset) (caller toAcc : Nat) (metadata : List Nat)
    (emissions : List CO2Emissions) (parent : ParentDetails) :
    Except AssetCO2EmissionsError Unit × InfinityAsset :=
  match ensure_proper_metadata metadata with
  | .error e => (.error e, s)
  | .ok _ =>
  match ensure_emissions_correct emissions with
  | .error e => (.error e, s)
  | .ok _ =>
  match ensure_proper_parent s parent caller with
  | .error e => (.error e, s)
  | .ok _ =>
  match next_id s with
  | (.error e, s1) => (.error e, s1)
  | (.ok asset_id, s1) =>
  match ensure_not_exist s1 asset_id with
  | .error e => (.error e, s1)
  | .ok _ =>
  match insert_owned_asset s1 toAcc asset_id with
  | (.error e, s2) => (.error e, s2)
  | (.ok _, s2) =>
  let s3 : InfinityAsset :=
    { s2 with
      asset_owner := upd s2.asset_owner asset_id toAcc
      metadata := upd s2.metadata asset_id metadata
      paused := upd s2.paused asset_id false
      parent := upd s2.parent asset_id parent }
  match save_new_emissions s3 asset_id emissions with
  | (.error e, s4) => (.error e, s4)
  | (.ok _, s4) => (.ok (), s4)

/-- `transfer` (src/lib.rs:734): validate existence, ownership, pause state and
the new emissions list, then move the id between index sets, overwrite the
owner, and finally save the emissions (which re-checks the combined bound). -/
def transfer (s : InfinityAsset) (caller toAcc id : Nat) (emissions : List CO2Emissions) :
    Except AssetCO2EmissionsError Unit × InfinityAsset :=
  match ensure_exists s id with
  | .error e => (.error e, s)
  | .ok _ =>
  match ensure_owner s id caller with
  | .error e => (.error e, s)
  | .ok _ =>
  match ensure_not_paused s id with
  | .error e => (.error e, s)
  | .ok _ =>
  match ensure_emissions_correct emissions with
  | .error e => (.error e, s)
  | .ok _ =>
  match remove_owned_asset s caller id with
  | (.error e, s1) => (.error e, s1)
  | (.ok _, s1) =>
  match insert_owned_asset s1 toAcc id with
  | (.error e, s2) => (.error e, s2)
  | (.ok _, s2) =>
  let s3 : InfinityAsset := { s2 with asset_owner := upd s2.asset_owner id toAcc }
  match save_new_emissions s3 id emissions with
  | (.error e, s4) => (.error e, s4)
  | (.ok _, s4) => (.ok (), s4)

/-- `pause` (src/lib.rs:762): owner check, not-paused check, then set the flag. -/
def pause (s : InfinityAsset) (caller id : Nat) :
    Except AssetCO2EmissionsError Unit × InfinityAsset :=
  match ensure_owner s id caller with
  | .error e => (.error e, s)
  | .ok _ =>
  match ensure_not_paused s id with
  | .error e => (.error e, s)
  | .ok _ => (.ok (), { s with paused := upd s.paused id true })

/-- `add_emissions` (src/lib.rs:778): validate, then save the singleton list. -/
def add_emissions (s : InfinityAsset) (caller id : Nat) (item : CO2Emissions) :
    Except AssetCO2EmissionsError Unit × InfinityAsset :=
  match ensure_exists s id with
  | .error e => (.error e, s)
  | .ok _ =>
  match ensure_owner s id caller with
  | .error e => (.error e, s)
  | .ok _ =>
  match ensure_not_paused s id with
  | .error e => (.error e, s)
  | .ok _ =>
  match ensure_emissions_item_correct item with
  | .error e => (.error e, s)
  | .ok _ =>
  match save_new_emissions s id [item] with
  | (.error e, s1) => (.error e, s1)
  | (.ok _, s1) => (.ok (), s1)

/-- `query_emissions` (src/lib.rs:824): `none` when the asset does not exist,
otherwise the provenance tree walk (with explicit fuel for the source loop). -/
def query_emissions (s : InfinityAsset) (fuel id : Nat) : Option (List AssetDetails) :=
  match ensure_exists s id with
  | .error _ => none
  | .ok _ => build_asset_tree s fuel id

/-- A public state-changing call, with the host-provided caller identity. -/
inductive Op where
  | blast (caller toAcc : Nat) (metadata : List Nat) (emissions : List CO2Emissions)
      (parent : ParentDetails)
  | transfer (caller toAcc id : Nat) (emissions : List CO2Emissions)
  | pause (caller id : Nat)
  | add_emissions (caller id : Nat) (item : CO2Emissions)

/-- Dispatch one public call. -/
def apply_op (s : InfinityAsset) : Op → Except AssetCO2EmissionsError Unit × InfinityAsset
  | .blast caller toAcc md emissions par => blast s caller toAcc md emissions par
  | .transfer caller toAcc id emissions => transfer s caller toAcc id emissions
  | .pause caller id => pause s caller id
  | .add_emissions caller id item => add_emissions s caller id item

/-- Run a list of public calls in order, keeping the post-state of every call,
successful or failed. -/
def run_ops (s : InfinityAsset) : List Op → InfinityAsset
  | [] => s
  | op :: ops => run_ops (apply_op s op).2 ops

/-- States reachable from the fresh contract through the public interface. -/
def Reachable (s : InfinityAsset) : Prop :=
  ∃ ops : List Op, run_ops new ops = s

/-- 1 when `op` is a `blast` call whose result `r` is a success, else 0. -/
def blast_ok_flag (op : Op) (r : Except AssetCO2EmissionsError Unit) : Nat :=
  match op, r with
  | .blast _ _ _ _ _, .ok _ => 1
  | _, _ => 0

/-- Number of successful `blast` calls while running `ops` from `s`. -/
def count_blast_ok (s : InfinityAsset) : List Op → Nat
  | [] => 0
  | op :: ops => blast_ok_flag op (apply_op s op).1 + count_blast_ok (apply_op s op).2 ops

/-- The provenance chain described by the specification: the first element is
the queried asset's stored details, each later element is the asset referenced
by the previous element's parent link, and the last element has no parent. -/
inductive ChainOk (s : InfinityAsset) : Nat → List AssetDetails → Prop where
  | root (id : Nat) (md : List Nat) (emissions : List CO2Emissions)
      (hmd : s.metadata id = some md) (hems : s.co2_emissions id = some emissions)
      (hpar : s.parent id = some none) :
      ChainOk s id [(id, md, emissions, none)]
  | step (id p r : Nat) (md : List Nat) (emissions : List CO2Emissions)
      (l : List AssetDetails)
      (hmd : s.metadata id = some md) (hems : s.co2_emissions id = some emissions)
      (hpar : s.parent id = some (some (p, r)))
      (rest : ChainOk s p l) :
      ChainOk s id ((id, md, emissions, some (p, r)) :: l)

/-- The ledger invariant maintained by every public call: the counter is
positive, unallocated ids have no entries, all five per-asset tables are
populated for exactly the existing ids, index-set lists are duplicate-free,
the ownership index mirrors the owner table, and parent links point strictly
downwards, pointing at existing assets. -/
structure LedgerInv (s : InfinityAsset) : Prop where
  one_le : 1 ≤ s.next_id
  fresh : ∀ id, s.next_id ≤ id → s.asset_owner id = none
  meta_iff : ∀ id, s.metadata id = none ↔ s.asset_owner id = none
  ems_iff : ∀ id, s.co2_emissions id = none ↔ s.asset_owner id = none
  paused_iff : ∀ id, s.paused id = none ↔ s.asset_owner id = none
  par_iff : ∀ id, s.parent id = none ↔ s.asset_owner id = none
  nodup : ∀ a l, s.owned_assets a = some l → l.Nodup
  idx : ∀ a x, x ∈ list_assets s a ↔ s.asset_owner x = some a
  parent_lt : ∀ id p r, s.parent id = some (some (p, r)) →
      p < id ∧ (s.asset_owner p).isSome

/-- `BTreeSet` bucket update used by `insert_owned_asset`: create the bucket on
first insertion, otherwise insert into the existing set. -/
def bucketInsert (b : Option (List Nat)) (aid : Nat) : List Nat :=
  match b with
  | none => [aid]
  | some owned => setInsert aid owned

/-- State after a successful `blast` from `s` (explicit form, used by the
`blast` characterization lemma). -/
def blastState (s : InfinityAsset) (toAcc : Nat) (metadata : List Nat)
    (emissions : List CO2Emissions) (parent : ParentDetails) : InfinityAsset :=
  { next_id := s.next_id + 1
    asset_owner := upd s.asset_owner s.next_id toAcc
    owned_assets := upd s.owned_assets toAcc (bucketInsert (s.owned_assets toAcc) s.next_id)
    co2_emissions := upd s.co2_emissions s.next_id emissions
    metadata := upd s.metadata s.next_id metadata
    paused := upd s.paused s.next_id false
    parent := upd s.parent s.next_id parent }

/-- State after `transfer` has moved ownership (index sets and owner table)
but before `save_new_emissions`; `l` is the caller's index set in `s`. -/
def transferMoved (s : InfinityAsset) (caller toAcc id : Nat) (l : List Nat) : InfinityAsset :=
  let s1 : InfinityAsset :=
    { s with owned_assets := upd s.owned_assets caller (l.erase id) }
  let s2 : InfinityAsset :=
    { s1 with owned_assets := upd s1.owned_assets toAcc (bucketInsert (s1.owned_assets toAcc) id) }
  { s2 with asset_owner := upd s2.asset_owner id toAcc }

/-- State after a fully successful `transfer`: ownership moved and the
combined emissions list written back. -/
def transferDone (s : InfinityAsset) (caller toAcc id : Nat) (l : List Nat)
    (ems : List CO2Emissions) : InfinityAsset :=
  { transferMoved s caller toAcc id l with co2_emissions := upd s.co2_emissions id (((s.co2_emissions id).getD []) ++ ems) }

/-- A sample emissions record used in concrete witnesses. -/
def item1 : CO2Emissions :=
  { category := .Process, primary := true, balanced := true, emissions := 1, date := 1682632800 }

/-! ### Basic lemmas about the map and set models -/

theorem upd_self {α : Type} (m : Nat → Option α) (k : Nat) (v : α) :
    upd m k v k = some v := by
  simp [upd]

theorem upd_ne {α : Type} (m : Nat → Option α) {i k : Nat} (v : α) (h : i ≠ k) :
    upd m k v i = m i := by
  simp [upd, h]

theorem mem_setInsert {y x : Nat} {l : List Nat} :
    y ∈ setInsert x l ↔ y = x ∨ y ∈ l := by
  unfold setInsert
  by_cases h : x ∈ l
  · simp only [h, if_true]
    constructor
    · exact Or.inr
    · rintro (rfl | hy)
      · exact h
      · exact hy
  · simp [h]

theorem setInsert_nodup {x : Nat} {l : List Nat} (h : l.Nodup) :
    (setInsert x l).Nodup := by
  unfold setInsert
  by_cases hx : x ∈ l
  · simpa [hx] using h
  · rw [if_neg hx]
    exact List.nodup_cons.mpr ⟨hx, h⟩

/-! ### Characterizations of the validators -/

theorem ensure_exists_of_some {s : InfinityAsset} {id o : Nat}
    (h : s.asset_owner id = some o) : ensure_exists s id = .ok () := by
  simp [ensure_exists, h]

theorem ensure_exists_of_none {s : InfinityAsset} {id : Nat}
    (h : s.asset_owner id = none) : ensure_exists s id = .error .AssetNotFound := by
  simp [ensure_exists, h]

theorem ensure_not_exist_of_none {s : InfinityAsset} {id : Nat}
    (h : s.asset_owner id = none) : ensure_not_exist s id = .ok () := by
  simp [ensure_not_exist, h]

theorem ensure_owner_ok_iff {s : InfinityAsset} {id a : Nat} :
    ensure_owner s id a = .ok () ↔ s.asset_owner id = some a := by
  cases h : s.asset_owner id with
  | none => simp [ensure_owner, h]
  | some o =>
      by_cases ho : o = a
      · subst ho
        simp [ensure_owner, h]
      · simp only [ensure_owner, h, if_neg ho]
        constructor
        · intro hh
          cases hh
        · intro hh
          cases hh
          exact absurd rfl ho

theorem ensure_owner_of_none {s : InfinityAsset} {id : Nat} (a : Nat)
    (h : s.asset_owner id = none) : ensure_owner s id a = .error .AssetNotFound := by
  simp [ensure_owner, h]

theorem ensure_owner_of_other {s : InfinityAsset} {id o a : Nat}
    (h : s.asset_owner id = some o) (hne : o ≠ a) :
    ensure_owner s id a = .error .NotOwner := by
  simp [ensure_owner, h, hne]

theorem ensure_not_paused_of_false {s : InfinityAsset} {id : Nat}
    (h : s.paused id = some false) : ensure_not_paused s id = .ok () := by
  simp [ensure_not_paused, has_paused, h]

theorem ensure_not_paused_of_true {s : InfinityAsset} {id : Nat}
    (h : s.paused id = some true) : ensure_not_paused s id = .error .AlreadyPaused := by
  simp [ensure_not_paused, has_paused, h]

theorem ensure_not_paused_ok_iff {s : InfinityAsset} {id : Nat} :
    ensure_not_paused s id = .ok () ↔ s.paused id = some false := by
  unfold ensure_not_paused has_paused
  cases h : s.paused id with
  | none => simp
  | some b => cases b <;> simp

theorem ensure_paused_ok_iff {s : InfinityAsset} {id : Nat} :
    ensure_paused s id = .ok () ↔ s.paused id = some true := by
  unfold ensure_paused has_paused
  cases h : s.paused id with
  | none => simp
  | some b => cases b <;> simp

theorem emissions_item_ok_iff {i : CO2Emissions} :
    exceptIsOk (ensure_emissions_item_correct i) = true ↔ i.emissions ≠ 0 := by
  unfold exceptIsOk ensure_emissions_item_correct ensure_emissions_item_not_zero
  cases h : i.emissions <;> simp

theorem ensure_emissions_item_correct_of_ne {i : CO2Emissions} (h : i.emissions ≠ 0) :
    ensure_emissions_item_correct i = .ok () := by
  unfold ensure_emissions_item_correct ensure_emissions_item_not_zero
  cases hh : i.emissions with
  | zero => exact absurd hh h
  | succ n => simp

theorem ensure_emissions_not_unbounded_of_le {l : List CO2Emissions}
    (h : l.length ≤ MAX_EMISSIONS_PER_ASSET) :
    ensure_emissions_not_unbounded l = .ok () := by
  simp [ensure_emissions_not_unbounded, Nat.not_lt.mpr h]

theorem ensure_emissions_not_unbounded_of_gt {l : List CO2Emissions}
    (h : MAX_EMISSIONS_PER_ASSET < l.length) :
    ensure_emissions_not_unbounded l = .error .EmissionsOverflow := by
  simp [ensure_emissions_not_unbounded, h]

theorem ensure_emissions_correct_ok_iff {l : List CO2Emissions} :
    ensure_emissions_correct l = .ok () ↔
      l ≠ [] ∧ l.length ≤ MAX_EMISSIONS_PER_ASSET ∧ ∀ i ∈ l, i.emissions ≠ 0 := by
  unfold ensure_emissions_correct
  cases l with
  | nil => simp [ensure_emissions_not_empty]
  | cons x xs =>
      have hne : (x :: xs) ≠ [] := by simp
      rw [show ensure_emissions_not_empty (x :: xs) = .ok () from rfl]
      by_cases hb : (x :: xs).length ≤ MAX_EMISSIONS_PER_ASSET
      · rw [ensure_emissions_not_unbounded_of_le hb]
        cases hall : (x :: xs).all (fun item => exceptIsOk (ensure_emissions_item_correct item)) with
        | false =>
            constructor
            · intro hh
              cases hh
            · rintro ⟨-, -, hz⟩
              exfalso
              have hok : (x :: xs).all
                  (fun item => exceptIsOk (ensure_emissions_item_correct item)) = true :=
                List.all_eq_true.mpr fun i hi => emissions_item_ok_iff.mpr (hz i hi)
              rw [hall] at hok
              cases hok
        | true =>
            constructor
            · intro _
              refine ⟨hne, hb, fun i hi => ?_⟩
              exact emissions_item_ok_iff.mp (List.all_eq_true.mp hall i hi)
            · intro _
              rfl
      · rw [ensure_emissions_not_unbounded_of_gt (Nat.lt_of_not_le hb)]
        constructor
        · intro hh
          cases hh
        · rintro ⟨-, hle, -⟩
          exact absurd hle hb

theorem ensure_emissions_correct_of
    {l : List CO2Emissions} (hne : l ≠ []) (hle : l.length ≤ MAX_EMISSIONS_PER_ASSET)
    (hz : ∀ i ∈ l, i.emissions ≠ 0) : ensure_emissions_correct l = .ok () :=
  ensure_emissions_correct_ok_iff.mpr ⟨hne, hle, hz⟩

theorem ensure_proper_metadata_of_le {md : List Nat} (h : md.length ≤ MAX_METADATA_LENGTH) :
    ensure_proper_metadata md = .ok () := by
  simp [ensure_proper_metadata, Nat.not_lt.mpr h]

theorem ensure_proper_parent_ok {s : InfinityAsset} {par : ParentDetails} {caller : Nat}
    (h : ensure_proper_parent s par caller = .ok ()) :
    par = none ∨ ∃ p r, par = some (p, r) ∧ s.asset_owner p = some caller ∧
      r ≠ 0 ∧ s.paused p = some true := by
  cases par with
  | none => exact Or.inl rfl
  | some pr =>
      obtain ⟨p, r⟩ := pr
      refine Or.inr ⟨p, r, rfl, ?_⟩
      simp only [ensure_proper_parent] at h
      cases ho : ensure_owner s p caller with
      | error e =>
          rw [ho] at h
          cases h
      | ok u =>
          cases u
          rw [ho] at h
          have hown := ensure_owner_ok_iff.mp ho
          cases hr : r with
          | zero =>
              rw [hr] at h
              cases h
          | succ n =>
              rw [hr] at h
              have hp := ensure_paused_ok_iff.mp h
              exact ⟨hown, by simp, hp⟩

theorem ensure_proper_parent_of_missing {s : InfinityAsset} {pid : Nat} (rel caller : Nat)
    (h : s.asset_owner pid = none) :
    ensure_proper_parent s (some (pid, rel)) caller = .error .AssetNotFound := by
  simp only [ensure_proper_parent]
  rw [ensure_owner_of_none caller h]

/-! ### Characterization of `save_new_emissions` -/

theorem save_new_emissions_ok {s : InfinityAsset} {id : Nat} {l : List CO2Emissions}
    (h : (((s.co2_emissions id).getD []) ++ l).length ≤ MAX_EMISSIONS_PER_ASSET) :
    save_new_emissions s id l =
      (.ok (), { s with co2_emissions := upd s.co2_emissions id (((s.co2_emissions id).getD []) ++ l) }) := by
  unfold save_new_emissions
  dsimp only
  rw [ensure_emissions_not_unbounded_of_le h]

theorem save_new_emissions_overflow {s : InfinityAsset} {id : Nat} {l : List CO2Emissions}
    (h : MAX_EMISSIONS_PER_ASSET < (((s.co2_emissions id).getD []) ++ l).length) :
    save_new_emissions s id l = (.error .EmissionsOverflow, s) := by
  unfold save_new_emissions
  dsimp only
  rw [ensure_emissions_not_unbounded_of_gt h]

theorem save_new_emissions_eq (s : InfinityAsset) (id : Nat) (l : List CO2Emissions) :
    save_new_emissions s id l =
      if MAX_EMISSIONS_PER_ASSET < (((s.co2_emissions id).getD []) ++ l).length
      then (.error .EmissionsOverflow, s)
      else (.ok (), { s with co2_emissions := upd s.co2_emissions id (((s.co2_emissions id).getD []) ++ l) }) := by
  by_cases h : MAX_EMISSIONS_PER_ASSET < (((s.co2_emissions id).getD []) ++ l).length
  · rw [save_new_emissions_overflow h, if_pos h]
  · rw [save_new_emissions_ok (Nat.not_lt.mp h), if_neg h]

theorem ensure_emissions_item_correct_ok_iff {i : CO2Emissions} :
    ensure_emissions_item_correct i = .ok () ↔ i.emissions ≠ 0 := by
  unfold ensure_emissions_item_correct ensure_emissions_item_not_zero
  cases h : i.emissions <;> simp

theorem insert_owned_asset_eq (s : InfinityAsset) (owner aid : Nat) :
    insert_owned_asset s owner aid =
      (.ok (), { s with owned_assets := upd s.owned_assets owner (bucketInsert (s.owned_assets owner) aid) }) := by
  cases hb : s.owned_assets owner with
  | none => simp [insert_owned_asset, hb, bucketInsert]
  | some owned => simp [insert_owned_asset, hb, bucketInsert]

theorem save_new_emissions_fresh {s : InfinityAsset} {id : Nat} {l : List CO2Emissions}
    (hnone : s.co2_emissions id = none) (hle : l.length ≤ MAX_EMISSIONS_PER_ASSET) :
    save_new_emissions s id l =
      (.ok (), { s with co2_emissions := upd s.co2_emissions id l }) := by
  have h : (((s.co2_emissions id).getD []) ++ l).length ≤ MAX_EMISSIONS_PER_ASSET := by
    rw [hnone]
    simpa using hle
  rw [save_new_emissions_ok h, hnone]
  simp

/-! ### Characterizations of the four public state-changing operations -/

theorem pause_cases (s : InfinityAsset) (caller id : Nat) :
    ((∃ e, pause s caller id = (.error e, s)) ∧
      ¬(s.asset_owner id = some caller ∧ s.paused id = some false)) ∨
    (s.asset_owner id = some caller ∧ s.paused id = some false ∧
      pause s caller id = (.ok (), { s with paused := upd s.paused id true })) := by
  unfold pause
  cases h1 : ensure_owner s id caller with
  | error e =>
      refine Or.inl ⟨⟨e, rfl⟩, ?_⟩
      rintro ⟨hown, -⟩
      rw [ensure_owner_ok_iff.mpr hown] at h1
      cases h1
  | ok u =>
      cases u
      have hown := ensure_owner_ok_iff.mp h1
      cases h2 : ensure_not_paused s id with
      | error e =>
          refine Or.inl ⟨⟨e, rfl⟩, ?_⟩
          rintro ⟨-, hp⟩
          rw [ensure_not_paused_of_false hp] at h2
          cases h2
      | ok u =>
          cases u
          exact Or.inr ⟨hown, ensure_not_paused_ok_iff.mp h2, rfl⟩

theorem add_cases (s : InfinityAsset) (caller id : Nat) (item : CO2Emissions) :
    ((∃ e, add_emissions s caller id item = (.error e, s)) ∧
      ¬(s.asset_owner id = some caller ∧ s.paused id = some false ∧ item.emissions ≠ 0 ∧
        (((s.co2_emissions id).getD []) ++ [item]).length ≤ MAX_EMISSIONS_PER_ASSET)) ∨
    (s.asset_owner id = some caller ∧ s.paused id = some false ∧ item.emissions ≠ 0 ∧
      (((s.co2_emissions id).getD []) ++ [item]).length ≤ MAX_EMISSIONS_PER_ASSET ∧
      add_emissions s caller id item =
        (.ok (), { s with co2_emissions := upd s.co2_emissions id (((s.co2_emissions id).getD []) ++ [item]) })) := by
  unfold add_emissions
  cases h0 : ensure_exists s id with
  | error e =>
      refine Or.inl ⟨⟨e, rfl⟩, ?_⟩
      rintro ⟨hown, -⟩
      rw [ensure_exists_of_some hown] at h0
      cases h0
  | ok u =>
  cases u
  cases h1 : ensure_owner s id caller with
  | error e =>
      refine Or.inl ⟨⟨e, rfl⟩, ?_⟩
      rintro ⟨hown, -⟩
      rw [ensure_owner_ok_iff.mpr hown] at h1
      cases h1
  | ok u =>
  cases u
  have hown := ensure_owner_ok_iff.mp h1
  cases h2 : ensure_not_paused s id with
  | error e =>
      refine Or.inl ⟨⟨e, rfl⟩, ?_⟩
      rintro ⟨-, hp, -⟩
      rw [ensure_not_paused_of_false hp] at h2
      cases h2
  | ok u =>
  cases u
  have hpau := ensure_not_paused_ok_iff.mp h2
  cases h3 : ensure_emissions_item_correct item with
  | error e =>
      refine Or.inl ⟨⟨e, rfl⟩, ?_⟩
      rintro ⟨-, -, hz, -⟩
      rw [ensure_emissions_item_correct_ok_iff.mpr hz] at h3
      cases h3
  | ok u =>
  cases u
  have hz := ensure_emissions_item_correct_ok_iff.mp h3
  by_cases hlen : (((s.co2_emissions id).getD []) ++ [item]).length ≤ MAX_EMISSIONS_PER_ASSET
  · rw [save_new_emissions_ok hlen]
    exact Or.inr ⟨hown, hpau, hz, hlen, rfl⟩
  · rw [save_new_emissions_overflow (Nat.lt_of_not_le hlen)]
    refine Or.inl ⟨⟨.EmissionsOverflow, rfl⟩, ?_⟩
    rintro ⟨-, -, -, hc⟩
    exact hlen hc

theorem ensure_proper_metadata_ok_iff {md : List Nat} :
    ensure_proper_metadata md = .ok () ↔ md.length ≤ MAX_METADATA_LENGTH := by
  unfold ensure_proper_metadata
  by_cases h : MAX_METADATA_LENGTH < md.length
  · simp only [if_pos h]
    constructor
    · intro hh
      cases hh
    · intro hh
      exact absurd h (Nat.not_lt.mpr hh)
  · simp only [if_neg h]
    exact iff_of_true (by trivial) (Nat.not_lt.mp h)

theorem blast_cases {s : InfinityAsset} (hinv : LedgerInv s) (caller toAcc : Nat)
    (md : List Nat) (ems : List CO2Emissions) (par : ParentDetails) :
    (∃ e, blast s caller toAcc md ems par = (.error e, s)) ∨
    (s.next_id ≠ U128_MAX ∧ md.length ≤ MAX_METADATA_LENGTH ∧
     ems ≠ [] ∧ ems.length ≤ MAX_EMISSIONS_PER_ASSET ∧ (∀ i ∈ ems, i.emissions ≠ 0) ∧
     ensure_proper_parent s par caller = .ok () ∧
     blast s caller toAcc md ems par = (.ok (), blastState s toAcc md ems par)) := by
  unfold blast
  cases h1 : ensure_proper_metadata md with
  | error e => exact Or.inl ⟨e, rfl⟩
  | ok u =>
  cases u
  cases h2 : ensure_emissions_correct ems with
  | error e => exact Or.inl ⟨e, rfl⟩
  | ok u =>
  cases u
  obtain ⟨hne, hle, hz⟩ := ensure_emissions_correct_ok_iff.mp h2
  cases h3 : ensure_proper_parent s par caller with
  | error e => exact Or.inl ⟨e, rfl⟩
  | ok u =>
  cases u
  by_cases hmax : s.next_id = U128_MAX
  · refine Or.inl ⟨.AssetIdOverflow, ?_⟩
    rw [show next_id s = (.error .AssetIdOverflow, s) from by simp [next_id, hmax]]
  · rw [show next_id s = (.ok s.next_id, { s with next_id := s.next_id + 1 }) from by
      simp [next_id, hmax]]
    dsimp only
    have hfresh : s.asset_owner s.next_id = none := hinv.fresh _ le_rfl
    have hco2 : s.co2_emissions s.next_id = none := (hinv.ems_iff _).mpr hfresh
    rw [show ensure_not_exist { s with next_id := s.next_id + 1 } s.next_id = .ok () from
      ensure_not_exist_of_none hfresh]
    rw [insert_owned_asset_eq]
    dsimp only
    rw [save_new_emissions_eq]
    dsimp only
    rw [hco2]
    simp only [Option.getD_none, List.nil_append]
    rw [if_neg (Nat.not_lt.mpr hle)]
    exact Or.inr ⟨hmax, ensure_proper_metadata_ok_iff.mp h1, hne, hle, hz, by trivial, by trivial⟩

theorem transfer_cases {s : InfinityAsset} (hinv : LedgerInv s) (caller toAcc id : Nat)
    (ems : List CO2Emissions) :
    ((∃ e, transfer s caller toAcc id ems = (.error e, s)) ∧
      ¬(s.asset_owner id = some caller ∧ s.paused id = some false ∧
        ensure_emissions_correct ems = .ok ())) ∨
    (s.asset_owner id = some caller ∧ s.paused id = some false ∧
     ems ≠ [] ∧ ems.length ≤ MAX_EMISSIONS_PER_ASSET ∧ (∀ i ∈ ems, i.emissions ≠ 0) ∧
     ∃ l, s.owned_assets caller = some l ∧ id ∈ l ∧
       ((MAX_EMISSIONS_PER_ASSET < (((s.co2_emissions id).getD []) ++ ems).length ∧
         transfer s caller toAcc id ems =
           (.error .EmissionsOverflow, transferMoved s caller toAcc id l)) ∨
        ((((s.co2_emissions id).getD []) ++ ems).length ≤ MAX_EMISSIONS_PER_ASSET ∧
         transfer s caller toAcc id ems =
           (.ok (), transferDone s caller toAcc id l ems)))) := by
  unfold transfer
  cases h0 : ensure_exists s id with
  | error e =>
      refine Or.inl ⟨⟨e, rfl⟩, ?_⟩
      rintro ⟨hown, -⟩
      rw [ensure_exists_of_some hown] at h0
      cases h0
  | ok u =>
  cases u
  cases h1 : ensure_owner s id caller with
  | error e =>
      refine Or.inl ⟨⟨e, rfl⟩, ?_⟩
      rintro ⟨hown, -⟩
      rw [ensure_owner_ok_iff.mpr hown] at h1
      cases h1
  | ok u =>
  cases u
  have hown := ensure_owner_ok_iff.mp h1
  cases h2 : ensure_not_paused s id with
  | error e =>
      refine Or.inl ⟨⟨e, rfl⟩, ?_⟩
      rintro ⟨-, hp, -⟩
      rw [ensure_not_paused_of_false hp] at h2
      cases h2
  | ok u =>
  cases u
  have hpau := ensure_not_paused_ok_iff.mp h2
  cases h3 : ensure_emissions_correct ems with
  | error e =>
      refine Or.inl ⟨⟨e, rfl⟩, ?_⟩
      rintro ⟨-, -, hc⟩
      cases hc
  | ok u =>
  cases u
  obtain ⟨hne, hle, hz⟩ := ensure_emissions_correct_ok_iff.mp h3
  have hmem : id ∈ list_assets s caller := (hinv.idx caller id).mpr hown
  cases hb : s.owned_assets caller with
  | none =>
      exfalso
      simp [list_assets, hb] at hmem
  | some l =>
  rw [show remove_owned_asset s caller id =
      (.ok (), { s with owned_assets := upd s.owned_assets caller (l.erase id) }) from by
    simp [remove_owned_asset, hb]]
  dsimp only
  rw [insert_owned_asset_eq]
  dsimp only
  rw [save_new_emissions_eq]
  dsimp only
  refine Or.inr ⟨hown, hpau, hne, hle, hz, l, rfl, ?_, ?_⟩
  · simpa [list_assets, hb] using hmem
  · by_cases hlen : MAX_EMISSIONS_PER_ASSET < (((s.co2_emissions id).getD []) ++ ems).length
    · rw [if_pos hlen]
      exact Or.inl ⟨hlen, rfl⟩
    · rw [if_neg hlen]
      exact Or.inr ⟨Nat.not_lt.mp hlen, rfl⟩

/-! ### The ledger invariant: establishment and preservation -/

theorem mem_list_assets {s : InfinityAsset} {a x : Nat} :
    x ∈ list_assets s a ↔ ∃ w, s.owned_assets a = some w ∧ x ∈ w := by
  unfold list_assets
  cases h : s.owned_assets a with
  | none => simp
  | some w => simp

theorem mem_bucketInsert {x aid : Nat} {b : Option (List Nat)} :
    x ∈ bucketInsert b aid ↔ x = aid ∨ ∃ w, b = some w ∧ x ∈ w := by
  cases b with
  | none => simp [bucketInsert]
  | some w => simp [bucketInsert, mem_setInsert]

theorem inv_new : LedgerInv new := by
  refine ⟨le_rfl, fun _ _ => rfl, fun _ => (by simp [new]), fun _ => (by simp [new]),
    fun _ => (by simp [new]), fun _ => (by simp [new]), fun a l h => (by cases h),
    fun a x => ?_, fun id p r h => (by cases h)⟩
  simp [list_assets, new]

theorem inv_set_co2 {s : InfinityAsset} (hinv : LedgerInv s) {id o : Nat}
    (hown : s.asset_owner id = some o) (v : List CO2Emissions) :
    LedgerInv { s with co2_emissions := upd s.co2_emissions id v } := by
  refine ⟨hinv.one_le, hinv.fresh, hinv.meta_iff, ?_, hinv.paused_iff, hinv.par_iff,
    hinv.nodup, hinv.idx, hinv.parent_lt⟩
  intro j
  show upd s.co2_emissions id v j = none ↔ s.asset_owner j = none
  by_cases hj : j = id
  · subst hj
    rw [upd_self, hown]
    simp
  · rw [upd_ne _ _ hj]
    exact hinv.ems_iff j

theorem inv_set_paused {s : InfinityAsset} (hinv : LedgerInv s) {id o : Nat}
    (hown : s.asset_owner id = some o) :
    LedgerInv { s with paused := upd s.paused id true } := by
  refine ⟨hinv.one_le, hinv.fresh, hinv.meta_iff, hinv.ems_iff, ?_, hinv.par_iff,
    hinv.nodup, hinv.idx, hinv.parent_lt⟩
  intro j
  show upd s.paused id true j = none ↔ s.asset_owner j = none
  by_cases hj : j = id
  · subst hj
    rw [upd_self, hown]
    simp
  · rw [upd_ne _ _ hj]
    exact hinv.paused_iff j

theorem inv_blastState {s : InfinityAsset} (hinv : LedgerInv s) {caller : Nat} (toAcc : Nat)
    (md : List Nat) (ems : List CO2Emissions) {par : ParentDetails}
    (hpar : ensure_proper_parent s par caller = .ok ()) :
    LedgerInv (blastState s toAcc md ems par) := by
  have hfresh : s.asset_owner s.next_id = none := hinv.fresh _ le_rfl
  refine ⟨?_, ?_, ?_, ?_, ?_, ?_, ?_, ?_, ?_⟩
  · exact Nat.le_succ_of_le hinv.one_le
  · intro j hj
    have hne : j ≠ s.next_id := by
      intro h
      subst h
      exact Nat.not_succ_le_self _ hj
    show upd s.asset_owner s.next_id toAcc j = none
    rw [upd_ne _ _ hne]
    exact hinv.fresh j (Nat.le_of_succ_le hj)
  · intro j
    show upd s.metadata s.next_id md j = none ↔ upd s.asset_owner s.next_id toAcc j = none
    by_cases hj : j = s.next_id
    · subst hj
      rw [upd_self, upd_self]
      simp
    · rw [upd_ne _ _ hj, upd_ne _ _ hj]
      exact hinv.meta_iff j
  · intro j
    show upd s.co2_emissions s.next_id ems j = none ↔ upd s.asset_owner s.next_id toAcc j = none
    by_cases hj : j = s.next_id
    · subst hj
      rw [upd_self, upd_self]
      simp
    · rw [upd_ne _ _ hj, upd_ne _ _ hj]
      exact hinv.ems_iff j
  · intro j
    show upd s.paused s.next_id false j = none ↔ upd s.asset_owner s.next_id toAcc j = none
    by_cases hj : j = s.next_id
    · subst hj
      rw [upd_self, upd_self]
      simp
    · rw [upd_ne _ _ hj, upd_ne _ _ hj]
      exact hinv.paused_iff j
  · intro j
    show upd s.parent s.next_id par j = none ↔ upd s.asset_owner s.next_id toAcc j = none
    by_cases hj : j = s.next_id
    · subst hj
      rw [upd_self, upd_self]
      simp
    · rw [upd_ne _ _ hj, upd_ne _ _ hj]
      exact hinv.par_iff j
  · intro a w h
    replace h : upd s.owned_assets toAcc (bucketInsert (s.owned_assets toAcc) s.next_id) a
        = some w := h
    by_cases ha : a = toAcc
    · subst ha
      rw [upd_self] at h
      injection h with h
      subst h
      unfold bucketInsert
      cases hb : s.owned_assets a with
      | none => simp
      | some w2 => exact setInsert_nodup (hinv.nodup _ _ hb)
    · rw [upd_ne _ _ ha] at h
      exact hinv.nodup a w h
  · intro a x
    rw [mem_list_assets]
    show (∃ w, upd s.owned_assets toAcc (bucketInsert (s.owned_assets toAcc) s.next_id) a
        = some w ∧ x ∈ w) ↔ upd s.asset_owner s.next_id toAcc x = some a
    by_cases hx : x = s.next_id
    · rw [hx, upd_self]
      by_cases ha : a = toAcc
      · rw [ha, upd_self]
        exact iff_of_true ⟨_, rfl, mem_bucketInsert.mpr (Or.inl rfl)⟩ rfl
      · rw [upd_ne _ _ ha]
        constructor
        · rintro ⟨w, hw, hxw⟩
          exfalso
          have hm : s.next_id ∈ list_assets s a := mem_list_assets.mpr ⟨w, hw, hxw⟩
          have h2 := (hinv.idx a s.next_id).mp hm
          rw [hfresh] at h2
          cases h2
        · intro h
          injection h with h
          exact absurd h.symm ha
    · rw [upd_ne _ _ hx]
      by_cases ha : a = toAcc
      · rw [ha, upd_self]
        simp only [Option.some_inj, exists_eq_left']
        rw [mem_bucketInsert]
        constructor
        · rintro (h | ⟨w, hw, hxw⟩)
          · exact absurd h hx
          · exact (hinv.idx toAcc x).mp (mem_list_assets.mpr ⟨w, hw, hxw⟩)
        · intro h
          obtain ⟨w, hw, hxw⟩ := mem_list_assets.mp ((hinv.idx toAcc x).mpr h)
          exact Or.inr ⟨w, hw, hxw⟩
      · rw [upd_ne _ _ ha, ← mem_list_assets]
        exact hinv.idx a x
  · intro j p r h
    replace h : upd s.parent s.next_id par j = some (some (p, r)) := h
    by_cases hjn : j = s.next_id
    · subst hjn
      rw [upd_self] at h
      injection h with h
      rcases ensure_proper_parent_ok hpar with hnone | ⟨p', r', heq, hownp, -, -⟩
      · rw [hnone] at h
        cases h
      · rw [heq] at h
        injection h with h
        injection h with h1 h2
        rw [h1] at hownp
        have hlt : p < s.next_id := by
          by_contra hc
          rw [hinv.fresh p (Nat.le_of_not_lt hc)] at hownp
          cases hownp
        refine ⟨hlt, ?_⟩
        show (upd s.asset_owner s.next_id toAcc p).isSome
        rw [upd_ne _ _ (Nat.ne_of_lt hlt), hownp]
        rfl
    · rw [upd_ne _ _ hjn] at h
      obtain ⟨hlt, hsome⟩ := hinv.parent_lt j p r h
      refine ⟨hlt, ?_⟩
      show (upd s.asset_owner s.next_id toAcc p).isSome
      by_cases hp : p = s.next_id
      · subst hp
        rw [upd_self]
        rfl
      · rw [upd_ne _ _ hp]
        exact hsome

theorem inv_transferMoved {s : InfinityAsset} (hinv : LedgerInv s) {caller id : Nat}
    (toAcc : Nat) {l : List Nat}
    (hown : s.asset_owner id = some caller) (hb : s.owned_assets caller = some l) :
    LedgerInv (transferMoved s caller toAcc id l) := by
  have hl : l.Nodup := hinv.nodup _ _ hb
  have hf1 : ∀ b w2, upd s.owned_assets caller (l.erase id) b = some w2 → w2.Nodup := by
    intro b w2 h2
    by_cases hbc : b = caller
    · rw [hbc, upd_self] at h2
      injection h2 with h2
      subst h2
      exact hl.erase _
    · rw [upd_ne _ _ hbc] at h2
      exact hinv.nodup b w2 h2
  have hf1mem : ∀ b y, (∃ w, upd s.owned_assets caller (l.erase id) b = some w ∧ y ∈ w)
      ↔ (s.asset_owner y = some b ∧ ¬(y = id ∧ b = caller)) := by
    intro b y
    by_cases hbc : b = caller
    · rw [hbc, upd_self]
      simp only [Option.some_inj, exists_eq_left']
      rw [hl.mem_erase_iff]
      constructor
      · rintro ⟨hy, hyl⟩
        have h3 := (hinv.idx caller y).mp (mem_list_assets.mpr ⟨l, hb, hyl⟩)
        exact ⟨h3, fun hc => hy hc.1⟩
      · rintro ⟨hy, hnc⟩
        obtain ⟨w, hw, hyw⟩ := mem_list_assets.mp ((hinv.idx caller y).mpr hy)
        rw [hb] at hw
        injection hw with hw
        subst hw
        exact ⟨fun hc => hnc ⟨hc, by trivial⟩, hyw⟩
    · rw [upd_ne _ _ hbc, ← mem_list_assets]
      constructor
      · intro h
        exact ⟨(hinv.idx b y).mp h, fun hc => hbc hc.2⟩
      · rintro ⟨hy, -⟩
        exact (hinv.idx b y).mpr hy
  refine ⟨hinv.one_le, ?_, ?_, ?_, ?_, ?_, ?_, ?_, ?_⟩
  · intro j hj
    have hnone := hinv.fresh j hj
    show upd s.asset_owner id toAcc j = none
    by_cases hne : j = id
    · rw [hne] at hnone
      rw [hown] at hnone
      cases hnone
    · rw [upd_ne _ _ hne]
      exact hnone
  · intro j
    show s.metadata j = none ↔ upd s.asset_owner id toAcc j = none
    by_cases hj : j = id
    · rw [hj, upd_self]
      constructor
      · intro hm
        have h2 := (hinv.meta_iff id).mp hm
        rw [hown] at h2
        cases h2
      · intro hc
        cases hc
    · rw [upd_ne _ _ hj]
      exact hinv.meta_iff j
  · intro j
    show s.co2_emissions j = none ↔ upd s.asset_owner id toAcc j = none
    by_cases hj : j = id
    · rw [hj, upd_self]
      constructor
      · intro hm
        have h2 := (hinv.ems_iff id).mp hm
        rw [hown] at h2
        cases h2
      · intro hc
        cases hc
    · rw [upd_ne _ _ hj]
      exact hinv.ems_iff j
  · intro j
    show s.paused j = none ↔ upd s.asset_owner id toAcc j = none
    by_cases hj : j = id
    · rw [hj, upd_self]
      constructor
      · intro hm
        have h2 := (hinv.paused_iff id).mp hm
        rw [hown] at h2
        cases h2
      · intro hc
        cases hc
    · rw [upd_ne _ _ hj]
      exact hinv.paused_iff j
  · intro j
    show s.parent j = none ↔ upd s.asset_owner id toAcc j = none
    by_cases hj : j = id
    · rw [hj, upd_self]
      constructor
      · intro hm
        have h2 := (hinv.par_iff id).mp hm
        rw [hown] at h2
        cases h2
      · intro hc
        cases hc
    · rw [upd_ne _ _ hj]
      exact hinv.par_iff j
  · intro a w h
    replace h : upd (upd s.owned_assets caller (l.erase id)) toAcc
        (bucketInsert ((upd s.owned_assets caller (l.erase id)) toAcc) id) a = some w := h
    by_cases ha : a = toAcc
    · rw [ha, upd_self] at h
      injection h with h
      subst h
      unfold bucketInsert
      cases hc : upd s.owned_assets caller (l.erase id) toAcc with
      | none => simp
      | some w2 => exact setInsert_nodup (hf1 _ _ hc)
    · rw [upd_ne _ _ ha] at h
      exact hf1 _ _ h
  · intro a x
    rw [mem_list_assets]
    show (∃ w, upd (upd s.owned_assets caller (l.erase id)) toAcc
        (bucketInsert ((upd s.owned_assets caller (l.erase id)) toAcc) id) a = some w ∧ x ∈ w)
      ↔ upd s.asset_owner id toAcc x = some a
    by_cases ha : a = toAcc
    · rw [ha, upd_self]
      simp only [Option.some_inj, exists_eq_left']
      rw [mem_bucketInsert]
      by_cases hx : x = id
      · rw [hx, upd_self]
        exact iff_of_true (Or.inl rfl) rfl
      · rw [upd_ne _ _ hx]
        constructor
        · rintro (h | h)
          · exact absurd h hx
          · exact ((hf1mem toAcc x).mp h).1
        · intro h
          exact Or.inr ((hf1mem toAcc x).mpr ⟨h, fun hc => hx hc.1⟩)
    · rw [upd_ne _ _ ha, hf1mem a x]
      by_cases hx : x = id
      · rw [hx, upd_self]
        constructor
        · rintro ⟨h1, h2⟩
          rw [hown] at h1
          injection h1 with h1
          exact absurd ⟨rfl, h1.symm⟩ h2
        · intro h
          injection h with h
          exact absurd h.symm ha
      · rw [upd_ne _ _ hx]
        constructor
        · rintro ⟨h1, -⟩
          exact h1
        · intro h
          exact ⟨h, fun hc => hx hc.1⟩
  · intro j p r h
    replace h : s.parent j = some (some (p, r)) := h
    obtain ⟨hlt, hsome⟩ := hinv.parent_lt j p r h
    refine ⟨hlt, ?_⟩
    show (upd s.asset_owner id toAcc p).isSome
    by_cases hp : p = id
    · rw [hp, upd_self]
      rfl
    · rw [upd_ne _ _ hp]
      exact hsome

theorem inv_transferDone {s : InfinityAsset} (hinv : LedgerInv s) {caller id : Nat}
    (toAcc : Nat) {l : List Nat}
    (hown : s.asset_owner id = some caller) (hb : s.owned_assets caller = some l)
    (ems : List CO2Emissions) :
    LedgerInv (transferDone s caller toAcc id l ems) := by
  have hmoved := inv_transferMoved hinv toAcc hown hb
  have hown2 : (transferMoved s caller toAcc id l).asset_owner id = some toAcc := by
    show upd s.asset_owner id toAcc id = some toAcc
    exact upd_self _ _ _
  exact inv_set_co2 hmoved hown2 _

theorem inv_apply {s : InfinityAsset} (hinv : LedgerInv s) (op : Op) :
    LedgerInv (apply_op s op).2 := by
  cases op with
  | blast caller toAcc md ems par =>
      show LedgerInv (blast s caller toAcc md ems par).2
      rcases blast_cases hinv caller toAcc md ems par with ⟨e, he⟩ | ⟨-, -, -, -, -, hpar, hok⟩
      · rw [he]
        exact hinv
      · rw [hok]
        exact inv_blastState hinv toAcc md ems hpar
  | transfer caller toAcc id ems =>
      show LedgerInv (transfer s caller toAcc id ems).2
      rcases transfer_cases hinv caller toAcc id ems with
        ⟨⟨e, he⟩, -⟩ | ⟨hown, -, -, -, -, l, hb, -, hcase⟩
      · rw [he]
        exact hinv
      · rcases hcase with ⟨-, he⟩ | ⟨-, he⟩
        · rw [he]
          exact inv_transferMoved hinv toAcc hown hb
        · rw [he]
          exact inv_transferDone hinv toAcc hown hb ems
  | pause caller id =>
      show LedgerInv (pause s caller id).2
      rcases pause_cases s caller id with ⟨⟨e, he⟩, -⟩ | ⟨hown, -, he⟩
      · rw [he]
        exact hinv
      · rw [he]
        exact inv_set_paused hinv hown
  | add_emissions caller id item =>
      show LedgerInv (add_emissions s caller id item).2
      rcases add_cases s caller id item with ⟨⟨e, he⟩, -⟩ | ⟨hown, -, -, -, he⟩
      · rw [he]
        exact hinv
      · rw [he]
        exact inv_set_co2 hinv hown _

theorem inv_run {s : InfinityAsset} (hinv : LedgerInv s) (ops : List Op) :
    LedgerInv (run_ops s ops) := by
  induction ops generalizing s with
  | nil => exact hinv
  | cons op ops ih => exact ih (inv_apply hinv op)

theorem reachable_inv {s : InfinityAsset} (h : Reachable s) : LedgerInv s := by
  obtain ⟨ops, rfl⟩ := h
  exact inv_run inv_new ops

/-! ### The provenance walk succeeds with bounded fuel on reachable states -/

theorem build_tree_ok {s : InfinityAsset} (hinv : LedgerInv s) :
    ∀ fuel id, id < fuel → (s.asset_owner id).isSome →
      ∃ l, build_asset_tree s fuel id = some l ∧ ChainOk s id l ∧ l.length ≤ id + 1 := by
  intro fuel
  induction fuel with
  | zero =>
      intro id hlt
      exact absurd hlt (Nat.not_lt_zero id)
  | succ f ih =>
      intro id hlt hsome
      have how : s.asset_owner id ≠ none := by
        intro hc
        rw [hc] at hsome
        cases hsome
      obtain ⟨md, hmd⟩ := Option.ne_none_iff_exists'.mp
        (fun hm => how ((hinv.meta_iff id).mp hm))
      obtain ⟨ems, hems⟩ := Option.ne_none_iff_exists'.mp
        (fun hm => how ((hinv.ems_iff id).mp hm))
      obtain ⟨par, hpar⟩ := Option.ne_none_iff_exists'.mp
        (fun hm => how ((hinv.par_iff id).mp hm))
      have hga : get_asset s id = some (some (id, md, ems, par)) := by
        unfold get_asset get_metadata get_asset_emissions get_parent_details
        rw [hmd, hems, hpar]
      cases par with
      | none =>
          refine ⟨[(id, md, ems, none)], ?_, ?_, ?_⟩
          · simp only [build_asset_tree, hga]
          · exact ChainOk.root id md ems hmd hems hpar
          · simp
      | some pr =>
          obtain ⟨p, r⟩ := pr
          obtain ⟨hplt, hpsome⟩ := hinv.parent_lt id p r hpar
          have hpf : p < f := lt_of_lt_of_le hplt (Nat.lt_succ_iff.mp hlt)
          obtain ⟨rest, hrest, hchain, hlen⟩ := ih p hpf hpsome
          refine ⟨(id, md, ems, some (p, r)) :: rest, ?_, ?_, ?_⟩
          · simp only [build_asset_tree, hga, hrest]
          · exact ChainOk.step id p r md ems rest hmd hems hpar hchain
          · simp only [List.length_cons]
            omega

/-! ### Pause monotonicity across single calls and call sequences -/

theorem paused_stays_apply {s : InfinityAsset} (hinv : LedgerInv s) {id : Nat}
    (hp : s.paused id = some true) (op : Op) :
    (apply_op s op).2.paused id = some true := by
  cases op with
  | blast caller toAcc md ems par =>
      show (blast s caller toAcc md ems par).2.paused id = some true
      rcases blast_cases hinv caller toAcc md ems par with ⟨e, he⟩ | ⟨-, -, -, -, -, -, hok⟩
      · rw [he]
        exact hp
      · rw [hok]
        show upd s.paused s.next_id false id = some true
        have hne : id ≠ s.next_id := by
          intro hc
          have hfresh := hinv.fresh s.next_id le_rfl
          have hnone := (hinv.paused_iff s.next_id).mpr hfresh
          rw [hc, hnone] at hp
          cases hp
        rw [upd_ne _ _ hne]
        exact hp
  | transfer caller toAcc id2 ems =>
      show (transfer s caller toAcc id2 ems).2.paused id = some true
      rcases transfer_cases hinv caller toAcc id2 ems with
        ⟨⟨e, he⟩, -⟩ | ⟨-, -, -, -, -, l, -, -, hcase⟩
      · rw [he]
        exact hp
      · rcases hcase with ⟨-, he⟩ | ⟨-, he⟩
        · rw [he]
          exact hp
        · rw [he]
          exact hp
  | pause caller id2 =>
      show (pause s caller id2).2.paused id = some true
      rcases pause_cases s caller id2 with ⟨⟨e, he⟩, -⟩ | ⟨-, hfalse, he⟩
      · rw [he]
        exact hp
      · rw [he]
        show upd s.paused id2 true id = some true
        by_cases hii : id = id2
        · rw [hii, upd_self]
        · rw [upd_ne _ _ hii]
          exact hp
  | add_emissions caller id2 item =>
      show (add_emissions s caller id2 item).2.paused id = some true
      rcases add_cases s caller id2 item with ⟨⟨e, he⟩, -⟩ | ⟨-, -, -, -, he⟩
      · rw [he]
        exact hp
      · rw [he]
        exact hp

theorem paused_stays_run {s : InfinityAsset} (hinv : LedgerInv s) {id : Nat}
    (hp : s.paused id = some true) (ops : List Op) :
    (run_ops s ops).paused id = some true := by
  induction ops generalizing s with
  | nil => exact hp
  | cons op ops ih => exact ih (inv_apply hinv op) (paused_stays_apply hinv hp op)

/-! ### The identifier counter advances exactly on successful blasts -/

theorem next_id_apply {s : InfinityAsset} (hinv : LedgerInv s) (op : Op) :
    (apply_op s op).2.next_id = s.next_id + blast_ok_flag op (apply_op s op).1 := by
  cases op with
  | blast caller toAcc md ems par =>
      rcases blast_cases hinv caller toAcc md ems par with ⟨e, he⟩ | ⟨-, -, -, -, -, -, hok⟩
      · simp [apply_op, blast_ok_flag, he]
      · simp [apply_op, blast_ok_flag, hok, blastState]
  | transfer caller toAcc id ems =>
      rcases transfer_cases hinv caller toAcc id ems with
        ⟨⟨e, he⟩, -⟩ | ⟨-, -, -, -, -, l, -, -, hcase⟩
      · simp [apply_op, blast_ok_flag, he]
      · rcases hcase with ⟨-, he⟩ | ⟨-, he⟩
        · simp [apply_op, blast_ok_flag, he, transferMoved]
        · simp [apply_op, blast_ok_flag, he, transferDone, transferMoved]
  | pause caller id =>
      rcases pause_cases s caller id with ⟨⟨e, he⟩, -⟩ | ⟨-, -, he⟩
      · simp [apply_op, blast_ok_flag, he]
      · simp [apply_op, blast_ok_flag, he]
  | add_emissions caller id item =>
      rcases add_cases s caller id item with ⟨⟨e, he⟩, -⟩ | ⟨-, -, -, -, he⟩
      · simp [apply_op, blast_ok_flag, he]
      · simp [apply_op, blast_ok_flag, he]

theorem next_id_run {s : InfinityAsset} (hinv : LedgerInv s) (ops : List Op) :
    (run_ops s ops).next_id = s.next_id + count_blast_ok s ops := by
  induction ops generalizing s with
  | nil => simp [run_ops, count_blast_ok]
  | cons op ops ih =>
      have h1 : run_ops s (op :: ops) = run_ops (apply_op s op).2 ops := rfl
      rw [h1, ih (inv_apply hinv op), next_id_apply hinv op]
      conv_rhs => rw [count_blast_ok]
      rw [Nat.add_assoc]

/-! ### Claim theorems -/

/-- C1: the specification asserts that a `transfer` failing with an error — in
particular `EmissionsOverflow` from the combined existing-plus-new emissions
bound — performs no state mutation.  The code violates this: `transfer`
removes the asset from the caller's index set, inserts it into the
recipient's, and overwrites the owner entry before `save_new_emissions`
checks the combined bound, so the failed call below returns
`EmissionsOverflow` with ownership already moved to the recipient.  This
theorem evaluates the code at the failing input. -/
theorem claim_C1_transfer_overflow_mutates :
    owner_of (run_ops new [Op.blast 1 1 [0] (List.replicate 100 item1) none]) 1 = some 1 ∧
    (transfer (run_ops new [Op.blast 1 1 [0] (List.replicate 100 item1) none]) 1 2 1
        [item1]).1 = .error .EmissionsOverflow ∧
    owner_of (transfer (run_ops new [Op.blast 1 1 [0] (List.replicate 100 item1) none]) 1 2 1
        [item1]).2 1 = some 2 ∧
    1 ∈ list_assets (transfer (run_ops new [Op.blast 1 1 [0] (List.replicate 100 item1) none])
        1 2 1 [item1]).2 2 ∧
    1 ∉ list_assets (transfer (run_ops new [Op.blast 1 1 [0] (List.replicate 100 item1) none])
        1 2 1 [item1]).2 1 ∧
    get_asset_emissions (transfer (run_ops new [Op.blast 1 1 [0] (List.replicate 100 item1)
        none]) 1 2 1 [item1]).2 1 =
      get_asset_emissions (run_ops new [Op.blast 1 1 [0] (List.replicate 100 item1) none]) 1 := by
  decide

/-- C2: in every reachable state — in particular after every successful public
state-changing call from the fresh ledger — an asset id is a member of
`list_assets a` exactly when `owner_of` returns that account. -/
theorem claim_C2_ownership_index_consistency {s : InfinityAsset} (hs : Reachable s)
    (a x : Nat) : x ∈ list_assets s a ↔ owner_of s x = some a :=
  (reachable_inv hs).idx a x

theorem claim_C2_witness :
    1 ∈ list_assets (run_ops new [Op.blast 1 1 [0] [item1] none]) 1 ↔
      owner_of (run_ops new [Op.blast 1 1 [0] [item1] none]) 1 = some 1 :=
  claim_C2_ownership_index_consistency ⟨[Op.blast 1 1 [0] [item1] none], rfl⟩ 1 1

/-- C3: on every reachable state, `query_emissions` returns `none` exactly
when the asset does not exist; otherwise it returns a chain whose head is the
queried asset's stored details, whose successive elements follow the parent
links (metadata and emissions verbatim from the store), and whose last
element has no parent (`ChainOk`).  The source's unbounded loop is run with
fuel `id + 1`, which by C4 is sufficient. -/
theorem claim_C3_query_emissions_chain {s : InfinityAsset} (hs : Reachable s) (id : Nat) :
    (s.asset_owner id = none → query_emissions s (id + 1) id = none) ∧
    ((s.asset_owner id).isSome →
      ∃ l, query_emissions s (id + 1) id = some l ∧ ChainOk s id l) := by
  have hinv := reachable_inv hs
  constructor
  · intro h
    unfold query_emissions
    rw [ensure_exists_of_none h]
  · intro h
    obtain ⟨l, hbuild, hchain, -⟩ := build_tree_ok hinv (id + 1) id (Nat.lt_succ_self id) h
    obtain ⟨o, ho⟩ := Option.isSome_iff_exists.mp h
    refine ⟨l, ?_, hchain⟩
    unfold query_emissions
    rw [ensure_exists_of_some ho, hbuild]

theorem claim_C3_witness :
    query_emissions (run_ops new [Op.blast 1 1 [0] [item1] none]) 3 2 = none ∧
    ∃ l, query_emissions (run_ops new [Op.blast 1 1 [0] [item1] none]) 2 1 = some l ∧
      ChainOk (run_ops new [Op.blast 1 1 [0] [item1] none]) 1 l :=
  ⟨(claim_C3_query_emissions_chain ⟨[Op.blast 1 1 [0] [item1] none], rfl⟩ 2).1 (by decide),
   (claim_C3_query_emissions_chain ⟨[Op.blast 1 1 [0] [item1] none], rfl⟩ 1).2 (by decide)⟩

/-- C4: in every reachable state every parent link points to a strictly
smaller identifier, and consequently the provenance walk terminates for every
existing asset with fuel (and hence chain length) bounded by the queried
identifier plus one. -/
theorem claim_C4_parent_lt_and_termination {s : InfinityAsset} (hs : Reachable s) :
    (∀ id p r, s.parent id = some (some (p, r)) → p < id) ∧
    (∀ id, (s.asset_owner id).isSome →
      ∃ l, build_asset_tree s (id + 1) id = some l ∧ l.length ≤ id + 1) := by
  have hinv := reachable_inv hs
  constructor
  · intro id p r h
    exact (hinv.parent_lt id p r h).1
  · intro id h
    obtain ⟨l, hb, -, hlen⟩ := build_tree_ok hinv (id + 1) id (Nat.lt_succ_self id) h
    exact ⟨l, hb, hlen⟩

theorem claim_C4_witness :
    ∃ l, build_asset_tree (run_ops new [Op.blast 1 1 [0] [item1] none, Op.pause 1 1,
        Op.blast 1 1 [1] [item1] (some (1, 5))]) 3 2 = some l ∧ l.length ≤ 3 :=
  (claim_C4_parent_lt_and_termination ⟨[Op.blast 1 1 [0] [item1] none, Op.pause 1 1,
      Op.blast 1 1 [1] [item1] (some (1, 5))], rfl⟩).2 2 (by decide)

/-- C5: a missing asset is always reported as `AssetNotFound`, never
`NotOwner` — for `transfer`, `pause`, `add_emissions` and for a missing
parent inside `blast` (after the earlier metadata/emissions validators pass);
and on an existing paused asset with a non-owner caller, `transfer`, `pause`
and `add_emissions` report `NotOwner` (the earlier check) rather than
`AlreadyPaused`. -/
theorem claim_C5_error_precedence (s : InfinityAsset) (caller toAcc id pid rel o : Nat)
    (ems : List CO2Emissions) (item : CO2Emissions) (md : List Nat) :
    (s.asset_owner id = none →
      (transfer s caller toAcc id ems).1 = .error .AssetNotFound ∧
      (pause s caller id).1 = .error .AssetNotFound ∧
      (add_emissions s caller id item).1 = .error .AssetNotFound) ∧
    (s.asset_owner pid = none → md.length ≤ MAX_METADATA_LENGTH →
      ensure_emissions_correct ems = .ok () →
      (blast s caller toAcc md ems (some (pid, rel))).1 = .error .AssetNotFound) ∧
    (s.asset_owner id = some o → o ≠ caller → s.paused id = some true →
      (transfer s caller toAcc id ems).1 = .error .NotOwner ∧
      (pause s caller id).1 = .error .NotOwner ∧
      (add_emissions s caller id item).1 = .error .NotOwner) := by
  refine ⟨?_, ?_, ?_⟩
  · intro h
    refine ⟨?_, ?_, ?_⟩
    · simp [transfer, ensure_exists_of_none h]
    · simp [pause, ensure_owner_of_none caller h]
    · simp [add_emissions, ensure_exists_of_none h]
  · intro h hmd hems
    simp [blast, ensure_proper_metadata_of_le hmd, hems,
      ensure_proper_parent_of_missing rel caller h]
  · intro ho hne hp
    have h1 : ensure_owner s id caller = .error .NotOwner := ensure_owner_of_other ho hne
    refine ⟨?_, ?_, ?_⟩
    · simp [transfer, ensure_exists_of_some ho, h1]
    · simp [pause, h1]
    · simp [add_emissions, ensure_exists_of_some ho, h1]

theorem claim_C5_witness :
    (transfer (run_ops new [Op.blast 1 1 [0] [item1] none, Op.pause 1 1]) 1 2 99 [item1]).1
        = .error .AssetNotFound ∧
    (pause (run_ops new [Op.blast 1 1 [0] [item1] none, Op.pause 1 1]) 1 99).1
        = .error .AssetNotFound ∧
    (add_emissions (run_ops new [Op.blast 1 1 [0] [item1] none, Op.pause 1 1]) 1 99 item1).1
        = .error .AssetNotFound ∧
    (blast (run_ops new [Op.blast 1 1 [0] [item1] none, Op.pause 1 1]) 1 2 [0] [item1]
        (some (99, 5))).1 = .error .AssetNotFound ∧
    (transfer (run_ops new [Op.blast 1 1 [0] [item1] none, Op.pause 1 1]) 2 3 1 [item1]).1
        = .error .NotOwner ∧
    (pause (run_ops new [Op.blast 1 1 [0] [item1] none, Op.pause 1 1]) 2 1).1
        = .error .NotOwner ∧
    (add_emissions (run_ops new [Op.blast 1 1 [0] [item1] none, Op.pause 1 1]) 2 1 item1).1
        = .error .NotOwner := by
  refine ⟨?_, ?_, ?_, ?_, ?_, ?_, ?_⟩
  · exact ((claim_C5_error_precedence (run_ops new [Op.blast 1 1 [0] [item1] none,
      Op.pause 1 1]) 1 2 99 99 5 1 [item1] item1 [0]).1 (by decide)).1
  · exact ((claim_C5_error_precedence (run_ops new [Op.blast 1 1 [0] [item1] none,
      Op.pause 1 1]) 1 2 99 99 5 1 [item1] item1 [0]).1 (by decide)).2.1
  · exact ((claim_C5_error_precedence (run_ops new [Op.blast 1 1 [0] [item1] none,
      Op.pause 1 1]) 1 2 99 99 5 1 [item1] item1 [0]).1 (by decide)).2.2
  · exact (claim_C5_error_precedence (run_ops new [Op.blast 1 1 [0] [item1] none,
      Op.pause 1 1]) 1 2 99 99 5 1 [item1] item1 [0]).2.1 (by decide) (by decide) (by decide)
  · exact ((claim_C5_error_precedence (run_ops new [Op.blast 1 1 [0] [item1] none,
      Op.pause 1 1]) 2 3 1 0 0 1 [item1] item1 [0]).2.2 (by decide) (by decide) (by decide)).1
  · exact ((claim_C5_error_precedence (run_ops new [Op.blast 1 1 [0] [item1] none,
      Op.pause 1 1]) 2 3 1 0 0 1 [item1] item1 [0]).2.2 (by decide) (by decide) (by decide)).2.1
  · exact ((claim_C5_error_precedence (run_ops new [Op.blast 1 1 [0] [item1] none,
      Op.pause 1 1]) 2 3 1 0 0 1 [item1] item1 [0]).2.2 (by decide) (by decide) (by decide)).2.2

/-- C6: `next_id` returns the current counter and increments it by exactly
one; at `u128::MAX` it fails with `AssetIdOverflow` leaving the counter (and,
for a `blast` failing at allocation, the whole store) unchanged, so no
identifier is consumed. -/
theorem claim_C6_next_id_allocator (s : InfinityAsset) :
    (s.next_id ≠ U128_MAX →
      next_id s = (.ok s.next_id, { s with next_id := s.next_id + 1 })) ∧
    (s.next_id = U128_MAX →
      next_id s = (.error .AssetIdOverflow, s) ∧
      (∀ caller toAcc md ems par, (blast s caller toAcc md ems par).2 = s) ∧
      (∀ caller toAcc md ems par, md.length ≤ MAX_METADATA_LENGTH →
        ensure_emissions_correct ems = .ok () →
        ensure_proper_parent s par caller = .ok () →
        blast s caller toAcc md ems par = (.error .AssetIdOverflow, s))) := by
  constructor
  · intro h
    simp [next_id, h]
  · intro h
    refine ⟨by simp [next_id, h], ?_, ?_⟩
    · intro caller toAcc md ems par
      unfold blast
      cases h1 : ensure_proper_metadata md with
      | error e => rfl
      | ok u =>
          cases u
          cases h2 : ensure_emissions_correct ems with
          | error e => rfl
          | ok u =>
              cases u
              cases h3 : ensure_proper_parent s par caller with
              | error e => rfl
              | ok u =>
                  cases u
                  rw [show next_id s = (.error .AssetIdOverflow, s) from by simp [next_id, h]]
    · intro caller toAcc md ems par hmd hems hpar
      unfold blast
      rw [ensure_proper_metadata_of_le hmd, hems, hpar]
      rw [show next_id s = (.error .AssetIdOverflow, s) from by simp [next_id, h]]

theorem claim_C6_witness :
    next_id new = (.ok new.next_id, { new with next_id := new.next_id + 1 }) ∧
    next_id { new with next_id := U128_MAX }
        = (.error .AssetIdOverflow, { new with next_id := U128_MAX }) ∧
    (blast { new with next_id := U128_MAX } 1 1 [0] [item1] none).2
        = { new with next_id := U128_MAX } ∧
    blast { new with next_id := U128_MAX } 1 1 [0] [item1] none
        = (.error .AssetIdOverflow, { new with next_id := U128_MAX }) := by
  refine ⟨?_, ?_, ?_, ?_⟩
  · exact (claim_C6_next_id_allocator new).1 (by decide)
  · exact ((claim_C6_next_id_allocator { new with next_id := U128_MAX }).2 rfl).1
  · exact ((claim_C6_next_id_allocator { new with next_id := U128_MAX }).2 rfl).2.1
      1 1 [0] [item1] none
  · exact ((claim_C6_next_id_allocator { new with next_id := U128_MAX }).2 rfl).2.2
      1 1 [0] [item1] none (by decide) (by decide) (by rfl)

/-- C7: from the fresh ledger (counter 1), the counter always equals one plus
the number of successful `blast` calls so far, a successful `blast` on a
reachable state is assigned (stores the asset under) the current counter value
and bumps the counter by one, and a failed `blast` leaves the whole state —
the counter in particular — unchanged; hence the k-th successful creation is
assigned identifier k, with no gaps or reuse. -/
theorem claim_C7_monotonic_ids :
    (∀ ops : List Op, (run_ops new ops).next_id = 1 + count_blast_ok new ops) ∧
    (∀ s : InfinityAsset, Reachable s → ∀ caller toAcc md ems par,
      ((blast s caller toAcc md ems par).1 = .ok () →
        (blast s caller toAcc md ems par).2.next_id = s.next_id + 1 ∧
        (blast s caller toAcc md ems par).2.asset_owner s.next_id = some toAcc) ∧
      (∀ e, (blast s caller toAcc md ems par).1 = .error e →
        (blast s caller toAcc md ems par).2 = s)) := by
  constructor
  · intro ops
    exact next_id_run inv_new ops
  · intro s hs caller toAcc md ems par
    have hinv := reachable_inv hs
    rcases blast_cases hinv caller toAcc md ems par with ⟨e, he⟩ | ⟨-, -, -, -, -, -, hok⟩
    · constructor
      · intro h
        rw [he] at h
        cases h
      · intro e2 h
        rw [he]
    · constructor
      · intro _
        rw [hok]
        constructor
        · rfl
        · show upd s.asset_owner s.next_id toAcc s.next_id = some toAcc
          exact upd_self _ _ _
      · intro e h
        rw [hok] at h
        cases h

theorem claim_C7_witness :
    (run_ops new [Op.blast 1 1 [0] [item1] none]).next_id
        = 1 + count_blast_ok new [Op.blast 1 1 [0] [item1] none] ∧
    ((blast (run_ops new [Op.blast 1 1 [0] [item1] none]) 1 2 [0] [item1] none).2.next_id
        = (run_ops new [Op.blast 1 1 [0] [item1] none]).next_id + 1 ∧
     (blast (run_ops new [Op.blast 1 1 [0] [item1] none]) 1 2 [0] [item1] none).2.asset_owner
        (run_ops new [Op.blast 1 1 [0] [item1] none]).next_id = some 2) :=
  ⟨claim_C7_monotonic_ids.1 [Op.blast 1 1 [0] [item1] none],
   (claim_C7_monotonic_ids.2 (run_ops new [Op.blast 1 1 [0] [item1] none])
      ⟨[Op.blast 1 1 [0] [item1] none], rfl⟩ 1 2 [0] [item1] none).1 (by decide)⟩

/-- C8: once `has_paused` reports `some true` on a reachable state, it stays
`some true` after any sequence of further public calls, and `pause` by the
owner in that state fails with `AlreadyPaused` leaving the state unchanged. -/
theorem claim_C8_pause_monotone {s : InfinityAsset} (hs : Reachable s) {id : Nat}
    (hp : has_paused s id = some true) :
    (∀ ops : List Op, has_paused (run_ops s ops) id = some true) ∧
    (∀ caller, s.asset_owner id = some caller →
      pause s caller id = (.error .AlreadyPaused, s)) := by
  have hinv := reachable_inv hs
  constructor
  · intro ops
    exact paused_stays_run hinv hp ops
  · intro caller hown
    unfold pause
    rw [ensure_owner_ok_iff.mpr hown]
    rw [ensure_not_paused_of_true hp]

theorem claim_C8_witness :
    has_paused (run_ops (run_ops new [Op.blast 1 1 [0] [item1] none, Op.pause 1 1])
        [Op.transfer 1 2 1 [item1], Op.add_emissions 1 1 item1]) 1 = some true ∧
    pause (run_ops new [Op.blast 1 1 [0] [item1] none, Op.pause 1 1]) 1 1 =
      (.error .AlreadyPaused, run_ops new [Op.blast 1 1 [0] [item1] none, Op.pause 1 1]) :=
  ⟨(claim_C8_pause_monotone ⟨[Op.blast 1 1 [0] [item1] none, Op.pause 1 1], rfl⟩
      (by decide)).1 [Op.transfer 1 2 1 [item1], Op.add_emissions 1 1 item1],
   (claim_C8_pause_monotone ⟨[Op.blast 1 1 [0] [item1] none, Op.pause 1 1], rfl⟩
      (by decide)).2 1 (by decide)⟩

/-- C9: on every reachable state, whenever a metadata entry exists the
emissions and parent entries exist as well, so `get_asset` never reaches its
panic branches (modelled as the outer `none`), and it reports a missing asset
(`some none`) exactly when the metadata entry is absent. -/
theorem claim_C9_get_asset_total {s : InfinityAsset} (hs : Reachable s) (id : Nat) :
    ((s.metadata id).isSome → (s.co2_emissions id).isSome ∧ (s.parent id).isSome) ∧
    get_asset s id ≠ none ∧
    (get_asset s id = some none ↔ s.metadata id = none) := by
  have hinv := reachable_inv hs
  cases hm : s.metadata id with
  | none =>
      refine ⟨fun h => ?_, ?_, ?_⟩
      · simp at h
      · unfold get_asset get_metadata
        rw [hm]
        simp
      · unfold get_asset get_metadata
        rw [hm]
        simp
  | some md =>
      have hown : s.asset_owner id ≠ none := by
        intro hc
        have h2 := (hinv.meta_iff id).mpr hc
        rw [hm] at h2
        cases h2
      obtain ⟨ems, hems⟩ := Option.ne_none_iff_exists'.mp
        (fun hc => hown ((hinv.ems_iff id).mp hc))
      obtain ⟨par, hpar⟩ := Option.ne_none_iff_exists'.mp
        (fun hc => hown ((hinv.par_iff id).mp hc))
      have hga : get_asset s id = some (some (id, md, ems, par)) := by
        unfold get_asset get_metadata get_asset_emissions get_parent_details
        rw [hm, hems, hpar]
      refine ⟨fun _ => ⟨by rw [hems]; rfl, by rw [hpar]; rfl⟩, ?_, ?_⟩
      · rw [hga]
        simp
      · rw [hga]
        simp

theorem claim_C9_witness :
    (((run_ops new [Op.blast 1 1 [0] [item1] none]).co2_emissions 1).isSome ∧
      ((run_ops new [Op.blast 1 1 [0] [item1] none]).parent 1).isSome) ∧
    get_asset (run_ops new [Op.blast 1 1 [0] [item1] none]) 1 ≠ none ∧
    (get_asset (run_ops new [Op.blast 1 1 [0] [item1] none]) 2 = some none ↔
      (run_ops new [Op.blast 1 1 [0] [item1] none]).metadata 2 = none) :=
  ⟨(claim_C9_get_asset_total ⟨[Op.blast 1 1 [0] [item1] none], rfl⟩ 1).1 (by decide),
   (claim_C9_get_asset_total ⟨[Op.blast 1 1 [0] [item1] none], rfl⟩ 1).2.1,
   (claim_C9_get_asset_total ⟨[Op.blast 1 1 [0] [item1] none], rfl⟩ 2).2.2⟩

/-- C10: a self-transfer on a reachable state (existing, unpaused asset owned
by the caller, valid non-empty emissions within the combined bound) succeeds;
the caller remains the owner, the id survives the remove-then-insert on the
caller's own index set, and the emissions are appended in order. -/
theorem claim_C10_self_transfer {s : InfinityAsset} (hs : Reachable s)
    {caller id : Nat} {ems : List CO2Emissions}
    (hown : owner_of s id = some caller) (hpau : has_paused s id = some false)
    (hne : ems ≠ []) (hz : ∀ i ∈ ems, i.emissions ≠ 0)
    (hb : (((s.co2_emissions id).getD []) ++ ems).length ≤ MAX_EMISSIONS_PER_ASSET) :
    (transfer s caller caller id ems).1 = .ok () ∧
    owner_of (transfer s caller caller id ems).2 id = some caller ∧
    id ∈ list_assets (transfer s caller caller id ems).2 caller ∧
    (transfer s caller caller id ems).2.co2_emissions id =
      some (((s.co2_emissions id).getD []) ++ ems) := by
  have hinv := reachable_inv hs
  have hle : ems.length ≤ MAX_EMISSIONS_PER_ASSET := by
    have h1 : ems.length ≤ (((s.co2_emissions id).getD []) ++ ems).length := by
      simp
    exact le_trans h1 hb
  rcases transfer_cases hinv caller caller id ems with
    ⟨-, hno⟩ | ⟨-, -, -, -, -, l, hbl, hmem, hcase⟩
  · exact absurd ⟨hown, hpau, ensure_emissions_correct_of hne hle hz⟩ hno
  · rcases hcase with ⟨hgt, -⟩ | ⟨-, he⟩
    · exact absurd hb (Nat.not_le.mpr hgt)
    · rw [he]
      refine ⟨rfl, ?_, ?_, ?_⟩
      · show upd s.asset_owner id caller id = some caller
        exact upd_self _ _ _
      · rw [mem_list_assets]
        refine ⟨bucketInsert ((upd s.owned_assets caller (l.erase id)) caller) id, ?_, ?_⟩
        · show upd (upd s.owned_assets caller (l.erase id)) caller
            (bucketInsert ((upd s.owned_assets caller (l.erase id)) caller) id) caller = some _
          exact upd_self _ _ _
        · exact mem_bucketInsert.mpr (Or.inl rfl)
      · show upd s.co2_emissions id (((s.co2_emissions id).getD []) ++ ems) id = some _
        exact upd_self _ _ _

theorem claim_C10_witness :
    (transfer (run_ops new [Op.blast 1 1 [0] [item1] none]) 1 1 1 [item1]).1 = .ok () ∧
    owner_of (transfer (run_ops new [Op.blast 1 1 [0] [item1] none]) 1 1 1 [item1]).2 1
        = some 1 ∧
    1 ∈ list_assets (transfer (run_ops new [Op.blast 1 1 [0] [item1] none]) 1 1 1 [item1]).2 1 ∧
    (transfer (run_ops new [Op.blast 1 1 [0] [item1] none]) 1 1 1 [item1]).2.co2_emissions 1 =
      some ((((run_ops new [Op.blast 1 1 [0] [item1] none]).co2_emissions 1).getD [])
        ++ [item1]) :=
  claim_C10_self_transfer ⟨[Op.blast 1 1 [0] [item1] none], rfl⟩ (by decide) (by decide)
    (by decide) (by decide) (by decide)
